import Mathlib

/-
Verification development for the edsac networking server (src/src/server.c).

The server code is embedded shallowly: the non-blocking byte source of a
connection is modelled as a finite list of characters (end of list stands
for "read returns 0 bytes / EAGAIN / EWOULDBLOCK / EBADF"), the global
connection hash table as an association list from file descriptor to
ConnectionData, and the global read buffer (GQueue) as a list of
BufferItems.  External collaborators that are not part of src/
(edsac_representation's message type and software_error) are modelled from
the specification and marked as such in their doc comments.
-/

set_option autoImplicit false

namespace EdsacServer

/-- Result of reading from a socket, from server.c's ReadStatus enum
(SUCCESS / ERROR / END). -/
inductive ReadStatus where
  | SUCCESS
  | ERROR
  | END
deriving DecidableEq, Repr

/-- Modelled from the spec: the external JSON schema has one semantic type,
KEEP_ALIVE, that is liveness-only; all other types are payload.  Errors are
reported through an error-kinded message constructed by software_error. -/
inductive MsgType where
  | KEEP_ALIVE
  | SOFT_ERROR
  | DATA
deriving DecidableEq, Repr

/-- Modelled from the spec: a decoded message, with its semantic type and
opaque content (edsac_representation is outside src/). -/
structure Message where
  type : MsgType
  content : String
deriving DecidableEq, Repr

/-- Reason string used by fetch_item on a decode failure. -/
def could_not_decode : String := "Could not decode message"

/-- Reason string used by report_close. -/
def connection_closed : String := "Connection closed"

/-- Reason string used by check_keep_alive. -/
def connection_timeout : String := "Connection timeout"

/-- Modelled from the spec: software_error(out, reason) constructs an
error-kinded message carrying the reason (edsac_representation is outside
src/).  Its type is an error type, never KEEP_ALIVE. -/
def software_error (reason : String) : Message :=
  { type := MsgType.SOFT_ERROR, content := reason }

/-- One delivery-queue entry, from edsac_server.h as used in server.c:
item->msg, item->address (the peer's IPv4 address, modelled as a Nat),
item->recv_time. -/
structure BufferItem where
  msg : Message
  address : Nat
  recv_time : Int
deriving DecidableEq, Repr

/-- ConnectionData from server.c.  The fd's readable byte stream is made
explicit as the field input (reading a byte consumes it; an empty input
models a read that yields no data).  The pthread mutex is not modelled;
the destroyed flag is. -/
structure ConnectionData where
  fd : Nat
  addr : Nat
  input : List Char
  last_keep_alive : Int
  destroyed : Bool
deriving DecidableEq, Repr

/-- The server's shared state: the connections hash table (association
list keyed by fd) and the global read buffer queue. -/
structure ServerState where
  connections_table : List (Nat × ConnectionData)
  read_buff : List BufferItem
deriving DecidableEq, Repr

/-- g_hash_table_lookup on the connections table. -/
def lookupConn (fd : Nat) : List (Nat × ConnectionData) → Option ConnectionData
  | [] => none
  | (k, v) :: rest => if k = fd then some v else lookupConn fd rest

/-- g_hash_table_remove on the connections table (drops the entry for the
key; the destroy notifier frees the record). -/
def removeConn (fd : Nat) (t : List (Nat × ConnectionData)) :
    List (Nat × ConnectionData) :=
  t.filter (fun p => ¬ p.1 = fd)

/-- In-place mutation of the record that the table holds for a key. -/
def updateConn (fd : Nat) (cd : ConnectionData) (t : List (Nat × ConnectionData)) :
    List (Nat × ConnectionData) :=
  t.map (fun p => if p.1 = fd then (fd, cd) else p)

/-- Contribution of one character to the nesting count of
read_json_object's loop: incremented on an opening brace, decremented on a
closing brace, untouched otherwise. -/
def braceDelta (c : Char) : Int :=
  if c = '{' then 1 else if c = '}' then -1 else 0

/-- The while loop of read_json_object: reads one character at a time,
adjusts the nesting count on every brace, appends the character to the
accumulated string and stops when the count reaches zero.  Returns none
when the source is exhausted mid-object (the partial packet case). -/
def read_nested : List Char → Int → List Char → Option (List Char × List Char)
  | [], _, _ => none
  | c :: rest, nest_count, string =>
    if nest_count + braceDelta c = 0 then some (string ++ [c], rest)
    else read_nested rest (nest_count + braceDelta c) (string ++ [c])

/-- read_json_object from server.c: attempts to read a full brace-balanced
JSON object.  The GString is created already holding one opening brace and
the first character read is required to be a brace (newline and carriage
return make it retry; anything else is an ERROR).  Returns the status, the
object when successful, and the bytes left unconsumed. -/
def read_json_object : List Char → ReadStatus × Option (List Char) × List Char
  | [] => (ReadStatus.END, none, [])
  | c :: rest =>
    if c = '{' then
      match read_nested rest 1 ['{'] with
      | some (obj, rem) => (ReadStatus.SUCCESS, some obj, rem)
      | none => (ReadStatus.ERROR, none, [])
    else if c = '\n' ∨ c = '\r' then
      read_json_object rest
    else
      (ReadStatus.ERROR, none, rest)

/-- Net brace-nesting depth of a byte string. -/
def depthOf (s : List Char) : Int :=
  (s.map braceDelta).sum

/-- Specification of a frame: the span starts with an opening brace, its
depth counter returns to zero exactly at its last character, and at no
earlier point. -/
def isBalancedSpan (s : List Char) : Prop :=
  s.head? = some '{' ∧ depthOf s = 0 ∧
    ∀ p q, s = p ++ q → p ≠ [] → q ≠ [] → depthOf p ≠ 0

/-- The newline bytes skipped by read_json_object where an object is
expected. -/
def isNewline (c : Char) : Bool :=
  c == '\n' || c == '\r'

/-- fetch_item from server.c: reads one JSON object from the connection's
fd, decodes it (decode_message is the external pure decoder, passed in as
a parameter), replaces an undecodable message by a software error, and
either refreshes last_keep_alive (KEEP_ALIVE) or pushes a BufferItem
tagged with the peer address and the receive time onto the read buffer.
Returns the status together with the mutated connection record and queue. -/
def fetch_item (decode : List Char → Option Message) (now : Int)
    (condata : ConnectionData) (read_buff : List BufferItem) :
    ReadStatus × ConnectionData × List BufferItem :=
  match read_json_object condata.input with
  | (ReadStatus.SUCCESS, some obj, rest) =>
    let msg := match decode obj with
               | some m => m
               | none => software_error could_not_decode
    if msg.type = MsgType.KEEP_ALIVE then
      (ReadStatus.SUCCESS,
       { condata with input := rest, last_keep_alive := now }, read_buff)
    else
      (ReadStatus.SUCCESS, { condata with input := rest },
       read_buff ++ [{ msg := msg, address := condata.addr, recv_time := now }])
  | (status, _, rest) => (status, { condata with input := rest }, read_buff)

/-- destroy_connection from server.c: removes the record for the
connection's fd from the connections table (the hash table's destroy
notifier closes the fd and frees the record). -/
def destroy_connection (condata : ConnectionData) (st : ServerState) :
    ServerState :=
  { st with connections_table := removeConn condata.fd st.connections_table }

/-- object_reader from server.c: runs fetch_item once under the read-buff
lock; on a read ERROR it destroys the connection, otherwise the mutated
record stays in the table. -/
def object_reader (decode : List Char → Option Message) (now : Int)
    (condata : ConnectionData) (st : ServerState) : ServerState :=
  match fetch_item decode now condata st.read_buff with
  | (ReadStatus.ERROR, cd, _) => destroy_connection cd st
  | (_, cd, q) =>
    { connections_table := updateConn cd.fd cd st.connections_table,
      read_buff := q }

/-- report_close from server.c: pushes a software-error item with reason
"Connection closed" carrying the peer address and the receive time, then
destroys the connection. -/
def report_close (now : Int) (condata : ConnectionData) (st : ServerState) :
    ServerState :=
  destroy_connection condata
    { st with read_buff := st.read_buff ++
        [{ msg := software_error connection_closed,
           address := condata.addr, recv_time := now }] }

/-- io_handler from server.c: the READ_SIG handler.  Looks the fd up in
the connections table (returning on a stale event), honours the destroyed
flag, probes the connection with a one-byte MSG_PEEK (an empty input
models the peek yielding no byte: peer closed or no data), and dispatches
to report_close or object_reader. -/
def io_handler (decode : List Char → Option Message) (now : Int) (fd : Nat)
    (st : ServerState) : ServerState :=
  match lookupConn fd st.connections_table with
  | none => st
  | some condata =>
    if condata.destroyed then st
    else
      match condata.input with
      | [] => report_close now condata st
      | _ :: _ => object_reader decode now condata st

/-- check_keep_alive from server.c: for one record, if the age of its last
keep-alive exceeds KEEP_ALIVE_PROD, push a software-error item with reason
"Connection timeout" carrying the record's address. -/
def check_keep_alive (KEEP_ALIVE_PROD now : Int) (condata : ConnectionData)
    (read_buff : List BufferItem) : List BufferItem :=
  if now - condata.last_keep_alive > KEEP_ALIVE_PROD then
    read_buff ++ [{ msg := software_error connection_timeout,
                    address := condata.addr, recv_time := now }]
  else read_buff

/-- iter_keep_alives from server.c: the periodic tick walks every record
of the connections table with check_keep_alive; the table itself is not
modified. -/
def iter_keep_alives (KEEP_ALIVE_PROD now : Int) (st : ServerState) :
    ServerState :=
  { st with read_buff :=
      (st.connections_table.foldl
        (fun q p => check_keep_alive KEEP_ALIVE_PROD now p.2 q) st.read_buff) }

/-- g_queue_push_tail: appends one item at the tail of the queue. -/
def g_queue_push_tail (read_buff : List BufferItem) (item : BufferItem) :
    List BufferItem :=
  read_buff ++ [item]

/-- read_message from server.c: pops the head of the read buffer, or
returns none when the queue is empty.  Returns the popped item together
with the remaining queue. -/
def read_message (read_buff : List BufferItem) :
    Option BufferItem × List BufferItem :=
  match read_buff with
  | [] => (none, [])
  | item :: rest => (some item, rest)

/-- Repeatedly applies read_message, at most fuel times, collecting the
items in the order the queue delivers them. -/
def popAll (read_buff : List BufferItem) : Nat → List BufferItem
  | 0 => []
  | fuel + 1 =>
    match read_message read_buff with
    | (none, _) => []
    | (some item, rest) => item :: popAll rest fuel

/-- Which of start_server's fallible steps succeed, in the order the code
attempts them: socket(), bind(), g_queue_new(), g_hash_table_new_full(),
setup_rt_signal_io(), create_timer(), listen(). -/
structure StartEnv where
  socket_ok : Bool
  bind_ok : Bool
  queue_ok : Bool
  table_ok : Bool
  signal_ok : Bool
  timer_ok : Bool
  listen_ok : Bool
deriving DecidableEq, Repr

/-- The resources start_server allocates: whether the listening socket is
open, whether read_buff and connections_table are allocated, and whether
the keep-alive timer is installed. -/
structure ServerResources where
  listen_socket_open : Bool
  read_buff_alloc : Bool
  connections_table_alloc : Bool
  timer_installed : Bool
deriving DecidableEq, Repr

/-- start_server from server.c, with each fallible call abstracted by the
corresponding flag of the environment.  Each error branch releases exactly
the resources the code releases there: the bind/queue failures close the
socket; the table failure closes the socket but leaves read_buff
allocated; the signal and timer failures close the socket, free read_buff
and destroy the table; the listen failure closes the socket and frees
read_buff but leaves the table allocated and the timer running. -/
def start_server (env : StartEnv) : Bool × ServerResources :=
  if ¬ env.socket_ok then
    (false, { listen_socket_open := false, read_buff_alloc := false,
              connections_table_alloc := false, timer_installed := false })
  else if ¬ env.bind_ok then
    (false, { listen_socket_open := false, read_buff_alloc := false,
              connections_table_alloc := false, timer_installed := false })
  else if ¬ env.queue_ok then
    (false, { listen_socket_open := false, read_buff_alloc := false,
              connections_table_alloc := false, timer_installed := false })
  else if ¬ env.table_ok then
    (false, { listen_socket_open := false, read_buff_alloc := true,
              connections_table_alloc := false, timer_installed := false })
  else if ¬ env.signal_ok then
    (false, { listen_socket_open := false, read_buff_alloc := false,
              connections_table_alloc := false, timer_installed := false })
  else if ¬ env.timer_ok then
    (false, { listen_socket_open := false, read_buff_alloc := false,
              connections_table_alloc := false, timer_installed := false })
  else if ¬ env.listen_ok then
    (false, { listen_socket_open := false, read_buff_alloc := false,
              connections_table_alloc := true, timer_installed := true })
  else
    (true, { listen_socket_open := true, read_buff_alloc := true,
             connections_table_alloc := true, timer_installed := true })

/-- The readiness events the running server reacts to: a READ_SIG on a
connection's fd, or the periodic keep-alive tick. -/
inductive Event where
  | read (now : Int) (fd : Nat)
  | tick (KEEP_ALIVE_PROD now : Int)
deriving DecidableEq, Repr

/-- Dispatch of one event to its handler. -/
def step (decode : List Char → Option Message) (st : ServerState) :
    Event → ServerState
  | Event.read now fd => io_handler decode now fd st
  | Event.tick prod now => iter_keep_alives prod now st

/-- Runs a trace of events through the server. -/
def runTrace (decode : List Char → Option Message) (evs : List Event)
    (st : ServerState) : ServerState :=
  evs.foldl (step decode) st

/-- A decoder that always fails, for concrete evaluations. -/
def decodeNone : List Char → Option Message := fun _ => none

/-- A keep-alive message, for concrete evaluations. -/
def msgKeep : Message := { type := MsgType.KEEP_ALIVE, content := "" }

/-- A payload message, for concrete evaluations. -/
def msgData : Message := { type := MsgType.DATA, content := "d" }

/-- A decoder that decodes every object as a keep-alive. -/
def decodeKeep : List Char → Option Message := fun _ => some msgKeep

/-- A decoder that decodes every object as a payload message. -/
def decodeData : List Char → Option Message := fun _ => some msgData

/-- A connection with an empty object pending, for concrete evaluations. -/
def cdObj : ConnectionData :=
  { fd := 1, addr := 9, input := ['{', '}'], last_keep_alive := 0,
    destroyed := false }

/-- A connection whose pending byte is not a brace, for concrete
evaluations. -/
def cdBad : ConnectionData :=
  { fd := 5, addr := 7, input := ['x'], last_keep_alive := 0,
    destroyed := false }

/-- A connection with nothing to read (the peer-closed probe yields no
byte), for concrete evaluations. -/
def cdClosed : ConnectionData :=
  { fd := 3, addr := 4, input := [], last_keep_alive := 0,
    destroyed := false }

/-- A one-connection server state around cdObj. -/
def stObj : ServerState :=
  { connections_table := [(1, cdObj)], read_buff := [] }

/-- A one-connection server state around cdBad. -/
def stBad : ServerState :=
  { connections_table := [(5, cdBad)], read_buff := [] }

/-- A one-connection server state around cdClosed. -/
def stClosed : ServerState :=
  { connections_table := [(3, cdClosed)], read_buff := [] }

/-! Lemmas about the brace-depth function. -/

theorem depthOf_nil : depthOf [] = 0 := rfl

theorem depthOf_cons (c : Char) (s : List Char) :
    depthOf (c :: s) = braceDelta c + depthOf s := by
  simp [depthOf]

theorem depthOf_append (s t : List Char) :
    depthOf (s ++ t) = depthOf s + depthOf t := by
  simp [depthOf]

theorem braceDelta_open : braceDelta '{' = 1 := rfl

/-! Soundness and completeness of the frame-reading loop with respect to
the depth-counter specification. -/

theorem read_nested_sound (input : List Char) :
    ∀ (n : Int) (string obj rem : List Char),
      read_nested input n string = some (obj, rem) →
      ∃ t, t ≠ [] ∧ obj = string ++ t ∧ input = t ++ rem ∧
        n + depthOf t = 0 ∧
        ∀ p q, t = p ++ q → p ≠ [] → q ≠ [] → n + depthOf p ≠ 0 := by
  induction input with
  | nil =>
    intro n string obj rem h
    simp [read_nested] at h
  | cons c rest ih =>
    intro n string obj rem h
    simp only [read_nested] at h
    by_cases h0 : n + braceDelta c = 0
    · rw [if_pos h0] at h
      rw [Option.some.injEq, Prod.mk.injEq] at h
      obtain ⟨hobj, hrem⟩ := h
      refine ⟨[c], by simp, hobj.symm, by simp [hrem], ?_, ?_⟩
      · simpa [depthOf_cons, depthOf_nil] using h0
      · intro p q hpq hp hq
        rcases p with _ | ⟨a, p'⟩
        · exact absurd rfl hp
        · have hq' : p' ++ q = [] := by
            have := congrArg List.tail hpq
            simpa using this.symm
          exact absurd (List.append_eq_nil.mp hq').2 hq
    · rw [if_neg h0] at h
      obtain ⟨t, htne, hobj, hin, hdep, hmin⟩ :=
        ih (n + braceDelta c) (string ++ [c]) obj rem h
      refine ⟨c :: t, by simp, ?_, ?_, ?_, ?_⟩
      · rw [hobj]; simp
      · rw [hin]; simp
      · rw [depthOf_cons]; omega
      · intro p q hpq hp hq
        rcases p with _ | ⟨a, p'⟩
        · exact absurd rfl hp
        · rw [List.cons_append, List.cons.injEq] at hpq
          obtain ⟨hac, ht⟩ := hpq
          subst hac
          rcases p' with _ | ⟨b, p''⟩
          · simpa [depthOf_cons, depthOf_nil] using h0
          · have := hmin (b :: p'') q ht (by simp) hq
            rw [depthOf_cons]
            omega

theorem read_nested_complete (t : List Char) :
    ∀ (n : Int) (rem string : List Char), t ≠ [] →
      n + depthOf t = 0 →
      (∀ p q, t = p ++ q → p ≠ [] → q ≠ [] → n + depthOf p ≠ 0) →
      read_nested (t ++ rem) n string = some (string ++ t, rem) := by
  induction t with
  | nil =>
    intro n rem string hne
    exact absurd rfl hne
  | cons c t' ih =>
    intro n rem string _ hdep hmin
    rcases t' with _ | ⟨d, t''⟩
    · have h0 : n + braceDelta c = 0 := by
        simpa [depthOf_cons, depthOf_nil] using hdep
      simp [read_nested, h0]
    · have h0 : n + braceDelta c ≠ 0 := by
        have := hmin [c] (d :: t'') rfl (by simp) (by simp)
        simpa [depthOf_cons, depthOf_nil] using this
      have hdep' : (n + braceDelta c) + depthOf (d :: t'') = 0 := by
        rw [depthOf_cons] at hdep
        omega
      have hmin' : ∀ p q, d :: t'' = p ++ q → p ≠ [] → q ≠ [] →
          (n + braceDelta c) + depthOf p ≠ 0 := by
        intro p q hpq hp hq
        have := hmin (c :: p) q (by rw [hpq]; rfl) (by simp) hq
        rw [depthOf_cons] at this
        omega
      have ihres := ih (n + braceDelta c) rem (string ++ [c]) (by simp) hdep' hmin'
      calc read_nested ((c :: d :: t'') ++ rem) n string
          = read_nested ((d :: t'') ++ rem) (n + braceDelta c) (string ++ [c]) := by
            simp [read_nested, h0]
        _ = some ((string ++ [c]) ++ (d :: t''), rem) := ihres
        _ = some (string ++ (c :: d :: t''), rem) := by simp

/-- Characterization of a successful frame read: for a stream whose first
byte is an opening brace, read_json_object returns SUCCESS with an object
and a remainder exactly when the object is a balanced span and the
remainder is everything after it. -/
theorem span_success_iff (input obj rem : List Char) :
    read_json_object ('{' :: input) = (ReadStatus.SUCCESS, some obj, rem) ↔
      ('{' :: input = obj ++ rem ∧ isBalancedSpan obj) := by
  constructor
  · intro h
    rcases hrn : read_nested input 1 ['{'] with _ | ⟨o, r⟩
    · simp [read_json_object, hrn] at h
    · simp [read_json_object, hrn] at h
      obtain ⟨rfl, rfl⟩ := h
      obtain ⟨t, htne, hobj, hin, hdep, hmin⟩ :=
        read_nested_sound input 1 ['{'] o r hrn
      have hobj' : o = '{' :: t := by simpa using hobj
      constructor
      · rw [hin, hobj']; rfl
      · refine ⟨by simp [hobj'], ?_, ?_⟩
        · rw [hobj', depthOf_cons, braceDelta_open]; omega
        · intro p q hpq hp hq
          rw [hobj'] at hpq
          rcases p with _ | ⟨a, p'⟩
          · exact absurd rfl hp
          · rw [List.cons_append, List.cons.injEq] at hpq
            obtain ⟨hac, ht⟩ := hpq
            subst hac
            rcases p' with _ | ⟨b, p''⟩
            · simp [depthOf_cons, depthOf_nil, braceDelta_open]
            · have := hmin (b :: p'') q ht (by simp) hq
              rw [depthOf_cons, braceDelta_open]
              omega
  · rintro ⟨hdecomp, hhead, hdep, hmin⟩
    rcases obj with _ | ⟨a, t⟩
    · simp at hhead
    · have ha : a = '{' := by simpa using hhead
      subst ha
      have hin : input = t ++ rem := by
        rw [List.cons_append, List.cons.injEq] at hdecomp
        exact hdecomp.2
      have htne : t ≠ [] := by
        intro hnil
        subst hnil
        simp [depthOf_cons, depthOf_nil, braceDelta_open] at hdep
      have hdep' : (1 : Int) + depthOf t = 0 := by
        rw [depthOf_cons, braceDelta_open] at hdep
        omega
      have hmin' : ∀ p q, t = p ++ q → p ≠ [] → q ≠ [] →
          (1 : Int) + depthOf p ≠ 0 := by
        intro p q hpq hp hq
        have := hmin ('{' :: p) q (by rw [hpq]; rfl) (by simp) hq
        rw [depthOf_cons, braceDelta_open] at this
        omega
      have hrn := read_nested_complete t 1 rem ['{'] htne hdep' hmin'
      rw [hin]
      simp [read_json_object, hrn]

/-! Lemmas about the newline-skipping behaviour of read_json_object. -/

theorem read_json_object_skips_newlines (input : List Char) :
    read_json_object input = read_json_object (input.dropWhile isNewline) := by
  induction input with
  | nil => rfl
  | cons c rest ih =>
    by_cases hnl : isNewline c = true
    · have hc : c = '\n' ∨ c = '\r' := by
        simpa [isNewline] using hnl
      have hne : ¬ c = '{' := by
        rcases hc with h | h <;> simp [h]
      have h1 : read_json_object (c :: rest) = read_json_object rest := by
        simp [read_json_object, hne, hc]
      rw [h1, List.dropWhile_cons_of_pos hnl, ih]
    · rw [List.dropWhile_cons_of_neg hnl]

theorem dropWhile_head_not_newline (input : List Char) :
    input.dropWhile isNewline = [] ∨
      ∃ c rest, input.dropWhile isNewline = c :: rest ∧ isNewline c = false := by
  induction input with
  | nil => exact Or.inl rfl
  | cons c rest ih =>
    by_cases hnl : isNewline c = true
    · rw [List.dropWhile_cons_of_pos hnl]
      exact ih
    · rw [List.dropWhile_cons_of_neg hnl]
      exact Or.inr ⟨c, rest, rfl, by simpa using hnl⟩

/-- A failed frame-loop run means no balanced span exists at the head of
the stream, and conversely. -/
theorem no_span_iff_read_nested_none (rest : List Char) :
    read_nested rest 1 ['{'] = none ↔
      ¬ ∃ obj rem, '{' :: rest = obj ++ rem ∧ isBalancedSpan obj := by
  constructor
  · rintro hn ⟨obj, rem, hd, hb⟩
    have hsucc := (span_success_iff rest obj rem).mpr ⟨hd, hb⟩
    simp [read_json_object, hn] at hsucc
  · intro h
    rcases hrn : read_nested rest 1 ['{'] with _ | ⟨o, r⟩
    · rfl
    · have hsucc : read_json_object ('{' :: rest) =
          (ReadStatus.SUCCESS, some o, r) := by
        simp [read_json_object, hrn]
      obtain ⟨hd, hb⟩ := (span_success_iff rest o r).mp hsucc
      exact absurd ⟨o, r, hd, hb⟩ h

/-- C6: the frame reader returns WouldBlock (END) exactly when the source
yields zero bytes before any byte of an object has been consumed (after
the newline-skipping, nothing is left); it returns ProtocolError (ERROR)
exactly when the first non-whitespace byte is not an opening brace, or it
is one but the source runs dry mid-object so that no balanced span exists;
leading newline and carriage-return bytes are skipped and reading
retries. -/
theorem frame_reader_status_characterization (input : List Char) :
    read_json_object input = read_json_object (input.dropWhile isNewline)
  ∧ ((read_json_object input).1 = ReadStatus.END ↔
      input.dropWhile isNewline = [])
  ∧ ((read_json_object input).1 = ReadStatus.ERROR ↔
      ∃ c rest, input.dropWhile isNewline = c :: rest ∧
        (¬ c = '{' ∨
          ¬ ∃ obj rem, c :: rest = obj ++ rem ∧ isBalancedSpan obj)) := by
  have hskip0 := read_json_object_skips_newlines input
  refine ⟨hskip0, ?_⟩
  rcases dropWhile_head_not_newline input with hnil | ⟨c, rest, hcons, hcnl⟩
  · have hval : read_json_object input = (ReadStatus.END, none, []) := by
      rw [hskip0, hnil]
      rfl
    constructor
    · rw [hval, hnil]
      simp
    · rw [hval, hnil]
      constructor
      · intro h
        simp at h
      · rintro ⟨c, rest, hc, -⟩
        simp at hc
  · by_cases hbrace : c = '{'
    · subst hbrace
      rcases hrn : read_nested rest 1 ['{'] with _ | ⟨o, r⟩
      · have hval : read_json_object input = (ReadStatus.ERROR, none, []) := by
          rw [hskip0, hcons]
          simp [read_json_object, hrn]
        constructor
        · rw [hval, hcons]
          simp
        · rw [hval, hcons]
          constructor
          · intro _
            exact ⟨'{', rest, rfl,
              Or.inr ((no_span_iff_read_nested_none rest).mp hrn)⟩
          · intro _
            rfl
      · have hval : read_json_object input = (ReadStatus.SUCCESS, some o, r) := by
          rw [hskip0, hcons]
          simp [read_json_object, hrn]
        constructor
        · rw [hval, hcons]
          simp
        · rw [hval, hcons]
          constructor
          · intro h
            simp at h
          · rintro ⟨c', rest', hc', hcond⟩
            rw [List.cons.injEq] at hc'
            obtain ⟨hc1, hc2⟩ := hc'
            subst hc1
            subst hc2
            rcases hcond with hne | hnospan
            · exact absurd rfl hne
            · have hvv : read_json_object ('{' :: rest) =
                  (ReadStatus.SUCCESS, some o, r) := by
                simp [read_json_object, hrn]
              obtain ⟨hd, hb⟩ := (span_success_iff rest o r).mp hvv
              exact absurd ⟨o, r, hd, hb⟩ hnospan
    · have hcnotnl : ¬ (c = '\n' ∨ c = '\r') := by
        rintro (h | h) <;> (subst h; simp [isNewline] at hcnl)
      have hval : read_json_object input = (ReadStatus.ERROR, none, rest) := by
        rw [hskip0, hcons]
        simp [read_json_object, hbrace, hcnotnl]
      constructor
      · rw [hval, hcons]
        simp
      · rw [hval, hcons]
        constructor
        · intro _
          exact ⟨c, rest, rfl, Or.inl hbrace⟩
        · intro _
          rfl

/-- C1: for every byte stream whose first byte is an opening brace, the
frame reader returns Complete (SUCCESS) exactly with the maximal span that
starts at that brace and ends at the closing brace which brings the depth
counter (incremented on every opening brace, decremented on every closing
brace) back to zero, with no bytes of the following object consumed. -/
theorem frame_reader_returns_balanced_span (input obj rem : List Char) :
    read_json_object ('{' :: input) = (ReadStatus.SUCCESS, some obj, rem) ↔
      ('{' :: input = obj ++ rem ∧ isBalancedSpan obj) :=
  span_success_iff input obj rem

/-- Concrete instance of the C1 theorem on the stream containing one empty
object followed by one extra byte. -/
theorem frame_reader_returns_balanced_span_witness :
    '{' :: ['}', 'X'] = ['{', '}'] ++ ['X'] ∧ isBalancedSpan ['{', '}'] :=
  (frame_reader_returns_balanced_span ['}', 'X'] ['{', '}'] ['X']).mp rfl

/-- Concrete instance of the C6 theorem: a stream whose first byte is
neither a brace nor a newline makes the frame reader return ERROR. -/
theorem frame_reader_status_characterization_witness :
    (read_json_object ['x']).1 = ReadStatus.ERROR :=
  (frame_reader_status_characterization ['x']).2.2.mpr
    ⟨'x', [], rfl, Or.inl (by decide)⟩

/-! The delivery queue is a FIFO. -/

theorem foldl_push_tail (items : List BufferItem) :
    ∀ q : List BufferItem, items.foldl g_queue_push_tail q = q ++ items := by
  induction items with
  | nil => intro q; simp [g_queue_push_tail]
  | cons i items ih =>
    intro q
    simp only [List.foldl_cons]
    rw [ih (g_queue_push_tail q i)]
    simp [g_queue_push_tail]

theorem popAll_length_self (q : List BufferItem) :
    popAll q q.length = q := by
  induction q with
  | nil => rfl
  | cons i rest ih =>
    simp only [List.length_cons, popAll, read_message]
    rw [ih]

/-- C7: the delivery queue is FIFO.  push appends to the tail,
read_message removes and returns the head (returning none on an empty
queue), and any sequence of pushed items is dequeued in exactly the order
it was enqueued. -/
theorem delivery_queue_fifo :
    read_message [] = (none, [])
  ∧ (∀ (q : List BufferItem) (item : BufferItem),
      g_queue_push_tail q item = q ++ [item])
  ∧ (∀ (item : BufferItem) (rest : List BufferItem),
      read_message (item :: rest) = (some item, rest))
  ∧ ∀ items : List BufferItem,
      popAll (items.foldl g_queue_push_tail []) items.length = items := by
  refine ⟨rfl, fun q item => rfl, fun item rest => rfl, fun items => ?_⟩
  rw [foldl_push_tail items []]
  simpa using popAll_length_self items

/-! Association-list lemmas for the connections table. -/

theorem lookupConn_mem {fd : Nat} {cd : ConnectionData} :
    ∀ {t : List (Nat × ConnectionData)},
      lookupConn fd t = some cd → (fd, cd) ∈ t := by
  intro t
  induction t with
  | nil =>
    intro h
    simp [lookupConn] at h
  | cons p rest ih =>
    intro h
    obtain ⟨k, v⟩ := p
    by_cases hk : k = fd
    · subst hk
      simp [lookupConn] at h
      subst h
      exact List.mem_cons_self _ _
    · simp [lookupConn, hk] at h
      exact List.mem_cons_of_mem _ (ih h)

theorem mem_removeConn {fd : Nat} {p : Nat × ConnectionData}
    {t : List (Nat × ConnectionData)} (h : p ∈ removeConn fd t) :
    p ∈ t ∧ p.1 ≠ fd := by
  unfold removeConn at h
  have hm := List.mem_filter.mp h
  exact ⟨hm.1, by simpa using hm.2⟩

theorem lookupConn_removeConn_self (fd : Nat) (t : List (Nat × ConnectionData)) :
    lookupConn fd (removeConn fd t) = none := by
  induction t with
  | nil => rfl
  | cons p rest ih =>
    obtain ⟨k, v⟩ := p
    by_cases hk : k = fd
    · subst hk
      have hdrop : removeConn k ((k, v) :: rest) = removeConn k rest := by
        simp [removeConn]
      rw [hdrop]
      exact ih
    · have hkeep : removeConn fd ((k, v) :: rest) = (k, v) :: removeConn fd rest := by
        simp [removeConn, hk]
      rw [hkeep]
      simp [lookupConn, hk]
      exact ih

theorem lookupConn_updateConn_self {fd : Nat} {cd : ConnectionData}
    (cd' : ConnectionData) {t : List (Nat × ConnectionData)}
    (h : lookupConn fd t = some cd) :
    lookupConn fd (updateConn fd cd' t) = some cd' := by
  induction t with
  | nil => simp [lookupConn] at h
  | cons p rest ih =>
    obtain ⟨k, v⟩ := p
    by_cases hk : k = fd
    · subst hk
      have hu : updateConn k cd' ((k, v) :: rest) =
          (k, cd') :: updateConn k cd' rest := by
        simp [updateConn]
      rw [hu]
      simp [lookupConn]
    · have hu : updateConn fd cd' ((k, v) :: rest) =
          (k, v) :: updateConn fd cd' rest := by
        simp [updateConn, hk]
      rw [hu]
      simp [lookupConn, hk] at h ⊢
      exact ih h

theorem mem_updateConn {fd : Nat} {cd : ConnectionData} {p : Nat × ConnectionData}
    {t : List (Nat × ConnectionData)} (h : p ∈ updateConn fd cd t) :
    p ∈ t ∨ p = (fd, cd) := by
  unfold updateConn at h
  obtain ⟨q, hq, hpq⟩ := List.mem_map.mp h
  by_cases hk : q.1 = fd
  · right
    rw [← hpq]
    simp [hk]
  · left
    rw [← hpq]
    simp [hk]
    exact hq

/-! Frame-effect lemmas for fetch_item. -/

theorem fetch_item_preserves_identity (decode : List Char → Option Message)
    (now : Int) (condata : ConnectionData) (q : List BufferItem) :
    (fetch_item decode now condata q).2.1.fd = condata.fd
  ∧ (fetch_item decode now condata q).2.1.addr = condata.addr
  ∧ (fetch_item decode now condata q).2.1.destroyed = condata.destroyed := by
  unfold fetch_item
  rcases read_json_object condata.input with ⟨status, optobj, rest⟩
  rcases status <;> rcases optobj <;> simp
  split <;> simp

theorem fetch_item_queue_delta (decode : List Char → Option Message)
    (now : Int) (condata : ConnectionData) (q : List BufferItem) :
    (fetch_item decode now condata q).2.2 = q ∨
    ∃ m : Message, ¬ m.type = MsgType.KEEP_ALIVE ∧
      (fetch_item decode now condata q).2.2 =
        q ++ [{ msg := m, address := condata.addr, recv_time := now }] := by
  unfold fetch_item
  rcases read_json_object condata.input with ⟨status, optobj, rest⟩
  rcases status <;> rcases optobj <;> simp
  split
  · left
    rfl
  · right
    exact ⟨_, by assumption, rfl⟩

/-- C2: a successfully framed and decoded KEEP_ALIVE message refreshes the
connection's last_keep_alive to the current time and is never pushed onto
the delivery queue; moreover every item the Reader ever enqueues has a
non-KEEP_ALIVE message. -/
theorem reader_never_queues_keep_alive (decode : List Char → Option Message)
    (now : Int) (condata : ConnectionData) (queue : List BufferItem) :
    (∀ obj rest m,
        read_json_object condata.input = (ReadStatus.SUCCESS, some obj, rest) →
        decode obj = some m → m.type = MsgType.KEEP_ALIVE →
        fetch_item decode now condata queue =
          (ReadStatus.SUCCESS,
           { condata with input := rest, last_keep_alive := now }, queue))
  ∧ ∀ it ∈ (fetch_item decode now condata queue).2.2,
      it ∈ queue ∨ ¬ it.msg.type = MsgType.KEEP_ALIVE := by
  constructor
  · intro obj rest m hread hdec hka
    simp [fetch_item, hread, hdec, hka]
  · intro it hit
    rcases fetch_item_queue_delta decode now condata queue with hq | ⟨m, hm, hq⟩
    · rw [hq] at hit
      exact Or.inl hit
    · rw [hq] at hit
      rcases List.mem_append.mp hit with h | h
      · exact Or.inl h
      · simp at h
        subst h
        exact Or.inr (by simpa using hm)

/-- Concrete instance of the C2 theorem: a KEEP_ALIVE message on the wire
refreshes the timestamp and leaves the queue empty. -/
theorem reader_never_queues_keep_alive_witness :
    fetch_item decodeKeep 7 cdObj [] =
      (ReadStatus.SUCCESS, { cdObj with input := [], last_keep_alive := 7 }, []) :=
  (reader_never_queues_keep_alive decodeKeep 7 cdObj []).1
    ['{', '}'] [] msgKeep rfl rfl rfl

/-- C10: processing a successfully decoded non-KEEP_ALIVE message leaves
the connection's last_keep_alive timestamp unchanged (only heartbeats
refresh liveness); the message is delivered as a payload item. -/
theorem payload_message_keeps_liveness_age (decode : List Char → Option Message)
    (now : Int) (condata : ConnectionData) (queue : List BufferItem)
    (obj rest : List Char) (m : Message)
    (hread : read_json_object condata.input = (ReadStatus.SUCCESS, some obj, rest))
    (hdec : decode obj = some m)
    (hne : ¬ m.type = MsgType.KEEP_ALIVE) :
    fetch_item decode now condata queue =
      (ReadStatus.SUCCESS, { condata with input := rest },
       queue ++ [{ msg := m, address := condata.addr, recv_time := now }])
  ∧ (fetch_item decode now condata queue).2.1.last_keep_alive =
      condata.last_keep_alive := by
  have h1 : fetch_item decode now condata queue =
      (ReadStatus.SUCCESS, { condata with input := rest },
       queue ++ [{ msg := m, address := condata.addr, recv_time := now }]) := by
    simp [fetch_item, hread, hdec, hne]
  exact ⟨h1, by rw [h1]⟩

/-- Concrete instance of the C10 theorem: a payload message leaves
last_keep_alive at its old value. -/
theorem payload_message_keeps_liveness_age_witness :
    fetch_item decodeData 7 cdObj [] =
      (ReadStatus.SUCCESS, { cdObj with input := [] },
       [{ msg := msgData, address := cdObj.addr, recv_time := 7 }])
  ∧ (fetch_item decodeData 7 cdObj []).2.1.last_keep_alive =
      cdObj.last_keep_alive := by
  have h := payload_message_keeps_liveness_age decodeData 7 cdObj []
    ['{', '}'] [] msgData rfl rfl (by decide)
  simpa using h

/-- C5: when a completely framed object fails to decode, the Reader
enqueues exactly one software-error item with reason "Could not decode
message" carrying the connection's peer, does not destroy the connection
(the record stays in the table), and the connection's pending input is
advanced exactly past that one object. -/
theorem decode_failure_reports_software_error (decode : List Char → Option Message)
    (now : Int) (condata : ConnectionData) (st : ServerState)
    (obj rest : List Char)
    (hread : read_json_object condata.input = (ReadStatus.SUCCESS, some obj, rest))
    (hdec : decode obj = none)
    (hmem : lookupConn condata.fd st.connections_table = some condata) :
    object_reader decode now condata st =
      { connections_table :=
          updateConn condata.fd { condata with input := rest } st.connections_table,
        read_buff := st.read_buff ++
          [{ msg := software_error could_not_decode,
             address := condata.addr, recv_time := now }] }
  ∧ lookupConn condata.fd
      (object_reader decode now condata st).connections_table =
        some { condata with input := rest } := by
  have hfi : fetch_item decode now condata st.read_buff =
      (ReadStatus.SUCCESS, { condata with input := rest },
       st.read_buff ++ [{ msg := software_error could_not_decode,
                          address := condata.addr, recv_time := now }]) := by
    simp [fetch_item, hread, hdec, software_error]
  have hor : object_reader decode now condata st =
      { connections_table :=
          updateConn condata.fd { condata with input := rest } st.connections_table,
        read_buff := st.read_buff ++
          [{ msg := software_error could_not_decode,
             address := condata.addr, recv_time := now }] } := by
    unfold object_reader
    rw [hfi]
  refine ⟨hor, ?_⟩
  rw [hor]
  exact lookupConn_updateConn_self _ hmem

/-- Concrete instance of the C5 theorem: an undecodable empty object
produces one software-error item and keeps the connection. -/
theorem decode_failure_reports_software_error_witness :
    object_reader decodeNone 7 cdObj stObj =
      { connections_table :=
          updateConn cdObj.fd { cdObj with input := [] } stObj.connections_table,
        read_buff := stObj.read_buff ++
          [{ msg := software_error could_not_decode,
             address := cdObj.addr, recv_time := 7 }] }
  ∧ lookupConn cdObj.fd
      (object_reader decodeNone 7 cdObj stObj).connections_table =
        some { cdObj with input := [] } :=
  decode_failure_reports_software_error decodeNone 7 cdObj stObj
    ['{', '}'] [] rfl rfl rfl

/-- Counterexample to C3 as stated: on a readiness event whose frame read
is a ProtocolError (first byte not a brace), the Reader destroys the
connection but enqueues nothing at all, so no SoftwareError item reaches
the delivery queue. -/
theorem protocol_error_enqueues_nothing_cex :
    (read_json_object cdBad.input).1 = ReadStatus.ERROR
  ∧ (io_handler decodeNone 0 5 stBad).read_buff = []
  ∧ (io_handler decodeNone 0 5 stBad).connections_table = [] :=
  ⟨rfl, rfl, rfl⟩

/-- C3 amended: on a readiness event whose frame read returns
ProtocolError, the Reader terminates the connection (removes the record
from the table, closing the handle) without enqueuing any item onto the
delivery queue. -/
theorem protocol_error_destroys_connection_silently
    (decode : List Char → Option Message) (now : Int)
    (condata : ConnectionData) (st : ServerState)
    (herr : (fetch_item decode now condata st.read_buff).1 = ReadStatus.ERROR) :
    object_reader decode now condata st =
      { connections_table := removeConn condata.fd st.connections_table,
        read_buff := st.read_buff } := by
  have hid := fetch_item_preserves_identity decode now condata st.read_buff
  unfold object_reader
  rcases hfi : fetch_item decode now condata st.read_buff with ⟨status, cd, q⟩
  rw [hfi] at herr hid
  simp at herr
  subst herr
  simp at hid
  simp [destroy_connection, hid.1]

/-- Concrete instance of the amended C3 theorem. -/
theorem protocol_error_destroys_connection_silently_witness :
    object_reader decodeNone 0 cdBad stBad =
      { connections_table := removeConn cdBad.fd stBad.connections_table,
        read_buff := stBad.read_buff } :=
  protocol_error_destroys_connection_silently decodeNone 0 cdBad stBad rfl

/-! The liveness scanner. -/

theorem check_keep_alive_foldl (prod now : Int) :
    ∀ (tbl : List (Nat × ConnectionData)) (q : List BufferItem),
      tbl.foldl (fun q p => check_keep_alive prod now p.2 q) q =
        q ++ ((tbl.filter
            (fun p => decide (now - p.2.last_keep_alive > prod))).map
          (fun p => { msg := software_error connection_timeout,
                      address := p.2.addr, recv_time := now })) := by
  intro tbl
  induction tbl with
  | nil =>
    intro q
    simp
  | cons p rest ih =>
    intro q
    simp only [List.foldl_cons]
    rw [ih]
    by_cases hc : now - p.2.last_keep_alive > prod
    · simp [check_keep_alive, hc, List.filter_cons]
    · simp [check_keep_alive, hc, List.filter_cons]

/-- Closed form of one scanner tick: the table is untouched and the queue
grows by one timeout item per late record, in table order. -/
theorem iter_keep_alives_spec (prod now : Int) (st : ServerState) :
    iter_keep_alives prod now st =
      { connections_table := st.connections_table,
        read_buff := st.read_buff ++
          ((st.connections_table.filter
              (fun p => decide (now - p.2.last_keep_alive > prod))).map
            (fun p => { msg := software_error connection_timeout,
                        address := p.2.addr, recv_time := now })) } := by
  unfold iter_keep_alives
  rw [check_keep_alive_foldl]

/-- C9: on every tick the liveness scanner enqueues one connection-timeout
item (with the record's peer address and recv_time equal to now) for
exactly those records whose age now - last_keep_alive exceeds
KEEP_ALIVE_PROD, and it leaves the connection table itself completely
unchanged. -/
theorem scanner_reports_exactly_late_connections
    (KEEP_ALIVE_PROD now : Int) (st : ServerState) :
    iter_keep_alives KEEP_ALIVE_PROD now st =
      { connections_table := st.connections_table,
        read_buff := st.read_buff ++
          ((st.connections_table.filter
              (fun p => decide (now - p.2.last_keep_alive > KEEP_ALIVE_PROD))).map
            (fun p => { msg := software_error connection_timeout,
                        address := p.2.addr, recv_time := now })) } :=
  iter_keep_alives_spec KEEP_ALIVE_PROD now st

/-- C8 is a code bug: start_server does not unwind all prior allocations
on every failure.  When every step succeeds but the final listen() call
fails, the connection table is left allocated and the periodic keep-alive
timer is left running; when the connection-table allocation fails, the
read buffer is left allocated. -/
theorem start_server_failure_leaks_resources :
    start_server { socket_ok := true, bind_ok := true, queue_ok := true,
                   table_ok := true, signal_ok := true, timer_ok := true,
                   listen_ok := false } =
      (false, { listen_socket_open := false, read_buff_alloc := false,
                connections_table_alloc := true, timer_installed := true })
  ∧ start_server { socket_ok := true, bind_ok := true, queue_ok := true,
                   table_ok := false, signal_ok := true, timer_ok := true,
                   listen_ok := true } =
      (false, { listen_socket_open := false, read_buff_alloc := true,
                connections_table_alloc := false, timer_installed := false }) :=
  ⟨rfl, rfl⟩

/-! Invariant machinery for C4: once no record of the table carries a
given peer address, no event can ever enqueue an item with that address,
and the table never regains a record with it. -/

theorem io_handler_no_new_addr (decode : List Char → Option Message)
    (now : Int) (fd : Nat) (a : Nat) (st : ServerState)
    (hT : ∀ p ∈ st.connections_table, ¬ p.2.addr = a) :
    (∀ p ∈ (io_handler decode now fd st).connections_table, ¬ p.2.addr = a)
  ∧ (∀ it ∈ (io_handler decode now fd st).read_buff,
      it ∈ st.read_buff ∨ ¬ it.address = a) := by
  unfold io_handler
  rcases hlook : lookupConn fd st.connections_table with _ | condata
  · exact ⟨hT, fun it hit => Or.inl hit⟩
  · have haddr : ¬ condata.addr = a := hT (fd, condata) (lookupConn_mem hlook)
    by_cases hdest : condata.destroyed
    · simp only [hdest, if_true]
      exact ⟨hT, fun it hit => Or.inl hit⟩
    · simp only [hdest, if_false]
      rcases hinput : condata.input with _ | ⟨c, cs⟩
      · unfold report_close destroy_connection
        constructor
        · intro p hp
          exact hT p (mem_removeConn hp).1
        · intro it hit
          simp only at hit
          rcases List.mem_append.mp hit with h | h
          · exact Or.inl h
          · simp at h
            subst h
            exact Or.inr haddr
      · unfold object_reader
        have hid := fetch_item_preserves_identity decode now condata st.read_buff
        have hqd := fetch_item_queue_delta decode now condata st.read_buff
        rcases hfi : fetch_item decode now condata st.read_buff with ⟨status, cd, q⟩
        rw [hfi] at hid hqd
        simp only at hid hqd
        have hcdaddr : ¬ cd.addr = a := by
          rw [hid.2.1]
          exact haddr
        have hqcases : ∀ it, it ∈ q → it ∈ st.read_buff ∨ ¬ it.address = a := by
          intro it hit
          rcases hqd with hq | ⟨m, -, hq⟩
          · rw [hq] at hit
            exact Or.inl hit
          · rw [hq] at hit
            rcases List.mem_append.mp hit with h | h
            · exact Or.inl h
            · simp at h
              subst h
              exact Or.inr haddr
        rcases status
        · constructor
          · intro p hp
            simp only at hp
            rcases mem_updateConn hp with h | h
            · exact hT p h
            · rw [h]
              exact hcdaddr
          · intro it hit
            exact hqcases it hit
        · unfold destroy_connection
          constructor
          · intro p hp
            exact hT p (mem_removeConn hp).1
          · intro it hit
            exact Or.inl hit
        · constructor
          · intro p hp
            simp only at hp
            rcases mem_updateConn hp with h | h
            · exact hT p h
            · rw [h]
              exact hcdaddr
          · intro it hit
            exact hqcases it hit

theorem iter_keep_alives_no_new_addr (prod now : Int) (a : Nat)
    (st : ServerState)
    (hT : ∀ p ∈ st.connections_table, ¬ p.2.addr = a) :
    (∀ p ∈ (iter_keep_alives prod now st).connections_table, ¬ p.2.addr = a)
  ∧ (∀ it ∈ (iter_keep_alives prod now st).read_buff,
      it ∈ st.read_buff ∨ ¬ it.address = a) := by
  rw [iter_keep_alives_spec prod now st]
  constructor
  · exact hT
  · intro it hit
    simp only at hit
    rcases List.mem_append.mp hit with h | h
    · exact Or.inl h
    · obtain ⟨p, hp, hpit⟩ := List.mem_map.mp h
      right
      rw [← hpit]
      simp only
      exact hT p (List.mem_of_mem_filter hp)

theorem step_no_new_addr (decode : List Char → Option Message) (a : Nat)
    (st : ServerState) (ev : Event)
    (hT : ∀ p ∈ st.connections_table, ¬ p.2.addr = a) :
    (∀ p ∈ (step decode st ev).connections_table, ¬ p.2.addr = a)
  ∧ (∀ it ∈ (step decode st ev).read_buff,
      it ∈ st.read_buff ∨ ¬ it.address = a) := by
  rcases ev with ⟨now, fd⟩ | ⟨prod, now⟩
  · exact io_handler_no_new_addr decode now fd a st hT
  · exact iter_keep_alives_no_new_addr prod now a st hT

theorem runTrace_no_new_addr (decode : List Char → Option Message) (a : Nat)
    (evs : List Event) :
    ∀ st : ServerState, (∀ p ∈ st.connections_table, ¬ p.2.addr = a) →
      (∀ p ∈ (runTrace decode evs st).connections_table, ¬ p.2.addr = a)
    ∧ (∀ it ∈ (runTrace decode evs st).read_buff,
        it ∈ st.read_buff ∨ ¬ it.address = a) := by
  induction evs with
  | nil =>
    intro st hT
    exact ⟨hT, fun it hit => Or.inl hit⟩
  | cons ev evs ih =>
    intro st hT
    obtain ⟨hT1, hQ1⟩ := step_no_new_addr decode a st ev hT
    obtain ⟨hT2, hQ2⟩ := ih (step decode st ev) hT1
    refine ⟨hT2, ?_⟩
    intro it hit
    rcases hQ2 it hit with h | h
    · exact hQ1 it h
    · exact Or.inr h

/-- C4: when the peer-closed probe of a connection yields no byte, exactly
one connection-closed item carrying that connection's peer address and a
recv_time is enqueued, the record is removed from the connection table,
and no later read or tick event can ever enqueue another item carrying
that peer's address (assuming the closing record was the only one with
that address). -/
theorem peer_close_reported_exactly_once (decode : List Char → Option Message)
    (now : Int) (fd : Nat) (condata : ConnectionData) (st : ServerState)
    (hlook : lookupConn fd st.connections_table = some condata)
    (hfd : condata.fd = fd)
    (hdest : condata.destroyed = false)
    (hclosed : condata.input = [])
    (huniq : ∀ p ∈ st.connections_table, p.2.addr = condata.addr → p.1 = fd) :
    (io_handler decode now fd st).read_buff =
      st.read_buff ++ [{ msg := software_error connection_closed,
                         address := condata.addr, recv_time := now }]
  ∧ lookupConn fd (io_handler decode now fd st).connections_table = none
  ∧ ∀ evs : List Event,
      ∀ it ∈ (runTrace decode evs (io_handler decode now fd st)).read_buff,
        it ∈ (io_handler decode now fd st).read_buff ∨
          ¬ it.address = condata.addr := by
  have hio : io_handler decode now fd st = report_close now condata st := by
    unfold io_handler
    rw [hlook]
    simp [hdest, hclosed]
  have hrc : (report_close now condata st).read_buff =
      st.read_buff ++ [{ msg := software_error connection_closed,
                         address := condata.addr, recv_time := now }] := rfl
  have htbl : (report_close now condata st).connections_table =
      removeConn condata.fd st.connections_table := rfl
  refine ⟨by rw [hio, hrc], ?_, ?_⟩
  · rw [hio, htbl, ← hfd]
    exact lookupConn_removeConn_self condata.fd st.connections_table
  · intro evs it hit
    have hT : ∀ p ∈ (io_handler decode now fd st).connections_table,
        ¬ p.2.addr = condata.addr := by
      intro p hp
      rw [hio, htbl] at hp
      obtain ⟨hpt, hpfd⟩ := mem_removeConn hp
      intro haddr
      exact hpfd (hfd ▸ huniq p hpt haddr)
    exact (runTrace_no_new_addr decode condata.addr evs
      (io_handler decode now fd st) hT).2 it hit

/-- Concrete instance of the C4 theorem: closing the only connection of a
one-connection server enqueues one connection-closed item and empties the
table. -/
theorem peer_close_reported_exactly_once_witness :
    (io_handler decodeNone 2 3 stClosed).read_buff =
      stClosed.read_buff ++ [{ msg := software_error connection_closed,
                               address := cdClosed.addr, recv_time := 2 }]
  ∧ lookupConn 3 (io_handler decodeNone 2 3 stClosed).connections_table = none := by
  have h := peer_close_reported_exactly_once decodeNone 2 3 cdClosed stClosed
    rfl rfl rfl rfl (by decide)
  exact ⟨h.1, h.2.1⟩

end EdsacServer
